import Mathlib

/-!
# SubSync: verification of the timestamp-shift engine and episode resolver

Shallow embedding of `src/main.rs` of the SubSync repository.  Text is
modelled as `List Char`; the Rust functions `parse_timestamp_srt`,
`parse_timestamp_ass`, `format_timestamp_srt`, `format_timestamp_ass`,
`shift_srt`, `shift_ass` and `extract_episode_number` are translated
directly.  Conventions:

* Rust `i64` is modelled as `Int` (64-bit overflow, which would require
  timestamps of hundreds of millions of hours, is not modelled; `i64`
  division/remainder are `Int.tdiv`/`Int.tmod`, which truncate toward
  zero exactly as Rust's `/` and `%` do).
* Rust `u32::from_str` is modelled with its range check (`< 2 ^ 32`),
  since overflow there is reachable with ordinary filenames.
* The regex `\d` class and `(?i)` folding are modelled over ASCII
  (the regex crate is additionally Unicode-aware there); `\s` is
  modelled as ASCII whitespace.
-/

set_option maxRecDepth 20000

namespace SubSync

/-! ## Decimal digits -/

/-- The decimal digit character for `n` (used only with `n < 10`). -/
def digitChar (n : Nat) : Char :=
  if n = 0 then '0' else if n = 1 then '1' else if n = 2 then '2'
  else if n = 3 then '3' else if n = 4 then '4' else if n = 5 then '5'
  else if n = 6 then '6' else if n = 7 then '7' else if n = 8 then '8' else '9'

/-- Numeric value of a decimal digit character. -/
def digitVal (c : Char) : Nat := c.toNat - 48

/-- Fuel-driven accumulator loop producing the decimal digits of `n`. -/
def natDigitsGo : Nat → Nat → List Char → List Char
  | 0, _, acc => acc
  | fuel + 1, n, acc =>
    if n < 10 then digitChar n :: acc
    else natDigitsGo fuel (n / 10) (digitChar (n % 10) :: acc)

/-- Decimal digit string of a natural number, as Rust's integer `Display`
    renders it (no sign, no padding, `0` for zero). -/
def natDigits (n : Nat) : List Char := natDigitsGo (n + 1) n []

/-- Numeric value of a digit string (most significant digit first). -/
def digitsToNat (l : List Char) : Nat :=
  l.foldl (fun a c => a * 10 + digitVal c) 0

/-- Left-pad with `'0'` to width `w`, as Rust's `{:0w}` does for
    non-negative numbers. -/
def padZero (w : Nat) (l : List Char) : List Char :=
  List.replicate (w - l.length) '0' ++ l

/-- Rust's `{:0w}`-style rendering of an `i64` (for a negative value the
    sign precedes the zero padding and counts toward the width). -/
def fmtIntPad (w : Nat) (v : Int) : List Char :=
  if v < 0 then '-' :: padZero (w - 1) (natDigits v.natAbs)
  else padZero w (natDigits v.toNat)

/-! ## Timestamp codec (`parse_timestamp_srt` … `format_timestamp_ass`) -/

/-- Rust `str::parse::<i64>` restricted to what the timestamps feed it:
    an optional sign followed by one or more ASCII decimal digits
    (the 64-bit range check is not modelled, see the file header). -/
def parseDigitsOpt (l : List Char) : Option Nat :=
  if l ≠ [] ∧ l.all Char.isDigit then some (digitsToNat l) else none

/-- Rust `str::parse::<i64>`: optional `+`/`-` sign, then digits. -/
def parseI64 : List Char → Option Int
  | [] => none
  | '+' :: rest => (parseDigitsOpt rest).map (fun n => (n : Int))
  | '-' :: rest => (parseDigitsOpt rest).map (fun n => -(n : Int))
  | l => (parseDigitsOpt l).map (fun n => (n : Int))

/-- Split on every character satisfying `p`
    (Rust `str::split` with a char-class pattern: keeps empty pieces,
    yields one piece for the empty string). -/
def splitOnPred (p : Char → Bool) : List Char → List (List Char)
  | [] => [[]]
  | c :: cs =>
    if p c then [] :: splitOnPred p cs
    else
      match splitOnPred p cs with
      | [] => [[c]]
      | t :: ts => (c :: t) :: ts

/-- Separator class of `parse_timestamp_srt`: `':'` or `','`. -/
def sepSrt (c : Char) : Bool := c = ':' || c = ','

/-- Separator class of `parse_timestamp_ass`: `':'` or `'.'`. -/
def sepAss (c : Char) : Bool := c = ':' || c = '.'

/-- `parse_timestamp_srt` from `src/main.rs`: split on `':'`/`','` into
    exactly four numeric fields `H,M,S,mmm`;
    result `H*3600000 + M*60000 + S*1000 + mmm`. -/
def parse_timestamp_srt (ts : List Char) : Option Int :=
  match splitOnPred sepSrt ts with
  | [f0, f1, f2, f3] =>
    match parseI64 f0, parseI64 f1, parseI64 f2, parseI64 f3 with
    | some hours, some minutes, some seconds, some millis =>
      some (hours * 3600000 + minutes * 60000 + seconds * 1000 + millis)
    | _, _, _, _ => none
  | _ => none

/-- `parse_timestamp_ass` from `src/main.rs`: split on `':'`/`'.'` into
    exactly four numeric fields `H,M,S,cc` (centiseconds);
    result `H*3600000 + M*60000 + S*1000 + cc*10`. -/
def parse_timestamp_ass (ts : List Char) : Option Int :=
  match splitOnPred sepAss ts with
  | [f0, f1, f2, f3] =>
    match parseI64 f0, parseI64 f1, parseI64 f2, parseI64 f3 with
    | some hours, some minutes, some seconds, some centiseconds =>
      some (hours * 3600000 + minutes * 60000 + seconds * 1000 + centiseconds * 10)
    | _, _, _, _ => none
  | _ => none

/-- `format_timestamp_srt` from `src/main.rs`:
    `format!("{:02}:{:02}:{:02},{:03}", h, m, s, millis)` with Rust's
    truncating `i64` division/remainder. -/
def format_timestamp_srt (ms : Int) : List Char :=
  fmtIntPad 2 (ms.tdiv 3600000) ++ ':' ::
  fmtIntPad 2 ((ms.tmod 3600000).tdiv 60000) ++ ':' ::
  fmtIntPad 2 ((ms.tmod 60000).tdiv 1000) ++ ',' ::
  fmtIntPad 3 (ms.tmod 1000)

/-- `format_timestamp_ass` from `src/main.rs`:
    `format!("{}:{:02}:{:02}.{:02}", h, m, s, centis)` — hours unpadded,
    centiseconds `= (ms % 1000) / 10` (truncating). -/
def format_timestamp_ass (ms : Int) : List Char :=
  fmtIntPad 1 (ms.tdiv 3600000) ++ ':' ::
  fmtIntPad 2 ((ms.tmod 3600000).tdiv 60000) ++ ':' ::
  fmtIntPad 2 ((ms.tmod 60000).tdiv 1000) ++ '.' ::
  fmtIntPad 2 ((ms.tmod 1000).tdiv 10)

/-! ## Rust `str::lines` and document reassembly -/

/-- Strip one trailing `'\r'` (the treatment `str::lines` applies to each
    segment that was terminated by `'\n'`). -/
def stripCR (l : List Char) : List Char :=
  if l.getLast? = some '\r' then l.dropLast else l

/-- Finish the `lines` computation on the `'\n'`-separated segments: every
    segment but the last was `'\n'`-terminated (strip an optional `'\r'`);
    a final empty segment (i.e. a trailing newline) produces no line; a
    final non-empty segment is yielded as-is, `'\r'` included. -/
def rustLinesGo : List (List Char) → List (List Char)
  | [] => []
  | [p] => if p = [] then [] else [p]
  | p :: q :: rest => stripCR p :: rustLinesGo (q :: rest)

/-- Rust `str::lines`, as documented for current Rust: split at `'\n'`,
    strip one `'\r'` directly before each `'\n'`, and treat the final
    line terminator as optional. -/
def rustLines (s : List Char) : List (List Char) :=
  rustLinesGo (splitOnPred (fun c => c = '\n') s)

/-- Rebuild the output document: both shift loops append each processed
    line followed by `'\n'`. -/
def unlines (ls : List (List Char)) : List Char :=
  ls.foldr (fun l acc => l ++ '\n' :: acc) []

/-! ## `shift_srt` -/

/-- The literal separator `" --> "`. -/
def arrowSep : List Char := [' ', '-', '-', '>', ' ']

/-- Rust `line.split(" --> ")`: split at leftmost, non-overlapping
    occurrences of the five-character separator. -/
def splitArrow : List Char → List (List Char)
  | ' ' :: '-' :: '-' :: '>' :: ' ' :: rest => [] :: splitArrow rest
  | c :: cs =>
    match splitArrow cs with
    | [] => [[c]]
    | t :: ts => (c :: t) :: ts
  | [] => [[]]

/-- The timestamp-line recognition of `shift_srt`: the line contains
    `" --> "` and splits on it into exactly two fields
    (`line.contains(" --> ")` plus the `parts.len() == 2` check). -/
def srtFields (line : List Char) : Option (List Char × List Char) :=
  match splitArrow line with
  | [a, b] => some (a, b)
  | _ => none

/-- Start/end times of a recognized SRT timestamp line, when both fields
    parse (`parse_timestamp_srt(parts[0])`, `parse_timestamp_srt(parts[1])`). -/
def srtTimes (line : List Char) : Option (Int × Int) :=
  match srtFields line with
  | some (a, b) =>
    match parse_timestamp_srt a, parse_timestamp_srt b with
    | some s, some e => some (s, e)
    | _, _ => none
  | none => none

/-- The per-line body of `shift_srt`'s loop: rewrite a recognized,
    parseable timestamp line with both times shifted and clamped
    (`(t + shift_ms).max(0)`); emit any other line verbatim. -/
def shiftSrtLine (shift : Int) (line : List Char) : List Char :=
  match srtTimes line with
  | some (s, e) =>
    format_timestamp_srt (max (s + shift) 0) ++ arrowSep ++
      format_timestamp_srt (max (e + shift) 0)
  | none => line

/-- `shift_srt` from `src/main.rs`: process each line of the input and
    append it, `'\n'`-terminated, to the result. -/
def shift_srt (content : List Char) (shift : Int) : List Char :=
  unlines ((rustLines content).map (shiftSrtLine shift))

/-! ## `shift_ass`

The dialogue regex
`^(Dialogue: \d+,)(\d+:\d+:\d+\.\d+),(\d+:\d+:\d+\.\d+),(.+)$`
is deterministic: every `\d+` is followed (inside or right after its
group) by a non-digit literal (`,`, `:` or `.`), so greedy matching with
backtracking coincides with maximal-munch, and the capture groups are
forced.  It is therefore modelled as the structural parser below
(`\d` over ASCII digits, see the file header; `.` matches anything
except `'\n'`). -/

/-- The literal text `"Dialogue: "`. -/
def dialogueLead : List Char :=
  ['D', 'i', 'a', 'l', 'o', 'g', 'u', 'e', ':', ' ']

/-- Match `\d+c` for a non-digit literal `c`: a maximal non-empty run of
    digits followed by exactly `c`; return the run and what follows `c`. -/
def digitsThen (c : Char) (l : List Char) : Option (List Char × List Char) :=
  match l.dropWhile Char.isDigit with
  | d :: rest =>
    if l.takeWhile Char.isDigit ≠ [] ∧ d = c then
      some (l.takeWhile Char.isDigit, rest)
    else none
  | [] => none

/-- Match `\d+:\d+:\d+\.\d+c` for a non-digit literal `c`: return the
    matched time text (without `c`) and what follows `c`. -/
def timeFieldThen (c : Char) (l : List Char) : Option (List Char × List Char) :=
  match digitsThen ':' l with
  | none => none
  | some (h, r1) =>
    match digitsThen ':' r1 with
    | none => none
    | some (m, r2) =>
      match digitsThen '.' r2 with
      | none => none
      | some (s, r3) =>
        match digitsThen c r3 with
        | none => none
        | some (f, r4) => some (h ++ ':' :: m ++ ':' :: s ++ '.' :: f, r4)

/-- The capture groups `(caps[1], caps[2], caps[3], caps[4])` of the
    dialogue regex on a line, or `none` if the line does not match. -/
def assMatch (line : List Char) :
    Option (List Char × List Char × List Char × List Char) :=
  if dialogueLead.isPrefixOf line then
    match digitsThen ',' (line.drop dialogueLead.length) with
    | none => none
    | some (idx, r1) =>
      match timeFieldThen ',' r1 with
      | none => none
      | some (t1, r2) =>
        match timeFieldThen ',' r2 with
        | none => none
        | some (t2, r3) =>
          if r3 ≠ [] ∧ r3.all (fun c => c ≠ '\n') then
            some (dialogueLead ++ idx ++ [','], t1, t2, r3)
          else none
  else none

/-- Start/end times of a matched dialogue line, when both time fields
    parse with `parse_timestamp_ass`. -/
def assTimes (line : List Char) : Option (Int × Int) :=
  match assMatch line with
  | some (_, t1, t2, _) =>
    match parse_timestamp_ass t1, parse_timestamp_ass t2 with
    | some s, some e => some (s, e)
    | _, _ => none
  | none => none

/-- The per-line body of `shift_ass`'s loop: on a regex match whose two
    time fields parse, emit `prefix ++ shifted-start ++ "," ++
    shifted-end ++ "," ++ rest`; otherwise emit the line verbatim. -/
def shiftAssLine (shift : Int) (line : List Char) : List Char :=
  match assMatch line with
  | some (pre, t1, t2, rest) =>
    match parse_timestamp_ass t1, parse_timestamp_ass t2 with
    | some s, some e =>
      pre ++ format_timestamp_ass (max (s + shift) 0) ++ ',' ::
        format_timestamp_ass (max (e + shift) 0) ++ ',' :: rest
    | _, _ => line
  | none => line

/-- `shift_ass` from `src/main.rs`. -/
def shift_ass (content : List Char) (shift : Int) : List Char :=
  unlines ((rustLines content).map (shiftAssLine shift))

/-! ## `extract_episode_number` -/

/-- Maximal leading digit run. -/
def takeDigits (l : List Char) : List Char := l.takeWhile Char.isDigit

/-- Leftmost match of `(?i)e(\d+)`: first position holding `e`/`E`
    followed by at least one digit; the capture is the maximal digit run. -/
def matchE : List Char → Option (List Char)
  | [] => none
  | c :: cs =>
    if c.toLower = 'e' ∧ takeDigits cs ≠ [] then some (takeDigits cs)
    else matchE cs

/-- Leftmost match of `(?i)ep(\d+)`. -/
def matchEp : List Char → Option (List Char)
  | [] => none
  | [_] => none
  | c :: p :: rest =>
    if c.toLower = 'e' ∧ p.toLower = 'p' ∧ takeDigits rest ≠ [] then
      some (takeDigits rest)
    else matchEp (p :: rest)

/-- Case-insensitive (ASCII folding) test that `pat` starts the list. -/
def ciLeads : List Char → List Char → Bool
  | [], _ => true
  | _ :: _, [] => false
  | p :: ps, c :: cs => c.toLower = p && ciLeads ps cs

/-- The literal word `episode`. -/
def episodeWord : List Char := ['e', 'p', 'i', 's', 'o', 'd', 'e']

/-- Skip the `[_\s]*` part (underscores and whitespace, greedy). -/
def skipWsUnderscore (l : List Char) : List Char :=
  l.dropWhile (fun c => c = '_' || c.isWhitespace)

/-- Leftmost match of `(?i)episode[_\s]*(\d+)`. -/
def matchEpisodeWord : List Char → Option (List Char)
  | [] => none
  | c :: cs =>
    if ciLeads episodeWord (c :: cs) ∧
        takeDigits (skipWsUnderscore ((c :: cs).drop 7)) ≠ [] then
      some (takeDigits (skipWsUnderscore ((c :: cs).drop 7)))
    else matchEpisodeWord cs

/-- The separator class `[\s\-_]`. -/
def isSepClass (c : Char) : Bool := c.isWhitespace || c = '-' || c = '_'

/-- The terminator `(?:\.|$|[\s\-_])` at the head of the remaining text. -/
def isEndOrTerm : List Char → Bool
  | [] => true
  | c :: _ => c = '.' || isSepClass c

/-- Leftmost match of `[\s\-_](\d{2,3})(?:\.|$|[\s\-_])`.  Since the
    terminator alternatives are all non-digits, the greedy `{2,3}` can
    only succeed on the full digit run after the separator, which must
    have length exactly 2 or 3. -/
def matchBareNumber : List Char → Option (List Char)
  | [] => none
  | c :: cs =>
    if isSepClass c ∧
        ((takeDigits cs).length = 2 ∨ (takeDigits cs).length = 3) ∧
        isEndOrTerm (cs.dropWhile Char.isDigit) then
      some (takeDigits cs)
    else matchBareNumber cs

/-- Rust `str::parse::<u32>` applied to a captured `\d+` run: the value
    must fit in 32 bits (overflow makes the parse fail). -/
def parseU32 (l : List Char) : Option Nat :=
  if l ≠ [] ∧ l.all Char.isDigit ∧ digitsToNat l < 2 ^ 32 then
    some (digitsToNat l)
  else none

/-- The four patterns of `extract_episode_number`, in source order. -/
inductive EpPattern
  | pe | pep | pword | pbare
deriving DecidableEq

/-- The capture of a pattern's leftmost match on a filename. -/
def runPattern : EpPattern → List Char → Option (List Char)
  | .pe => matchE
  | .pep => matchEp
  | .pword => matchEpisodeWord
  | .pbare => matchBareNumber

/-- The ordered pattern list of `extract_episode_number`. -/
def epPatterns : List EpPattern := [.pe, .pep, .pword, .pbare]

/-- The `for pattern in patterns` loop: on a match whose capture parses
    as `u32`, return it; otherwise continue with the later patterns. -/
def extractGo (ps : List EpPattern) (f : List Char) : Option Nat :=
  match ps with
  | [] => none
  | p :: rest =>
    match (runPattern p f).bind parseU32 with
    | some n => some n
    | none => extractGo rest f

/-- `extract_episode_number` from `src/main.rs`. -/
def extract_episode_number (f : List Char) : Option Nat :=
  extractGo epPatterns f

/-! ## Specification-side definitions

These follow the spec's words (not the source) and exist to be compared
with the source-derived functions above. -/

/-- A valid Format-A timestamp (spec §3): `HH:MM:SS,mmm` — hours
    zero-padded to at least two digits, minutes and seconds zero-padded
    to two digits, milliseconds zero-padded to three digits.  Field
    ranges (`m < 60`, `s < 60`, `mm < 1000`) are imposed by the theorems
    that use this. -/
def canonA (h m s mm : Nat) : List Char :=
  padZero 2 (natDigits h) ++ ':' :: padZero 2 (natDigits m) ++ ':' ::
    padZero 2 (natDigits s) ++ ',' :: padZero 3 (natDigits mm)

/-- A valid Format-B timestamp (spec §3): `H:MM:SS.cc` — hours unpadded,
    minutes/seconds zero-padded to two digits, a two-digit centisecond
    fraction. -/
def canonB (h m s cc : Nat) : List Char :=
  natDigits h ++ ':' :: padZero 2 (natDigits m) ++ ':' ::
    padZero 2 (natDigits s) ++ '.' :: padZero 2 (natDigits cc)

/-- Spec-side shape of one Format-B time field inside a dialogue line:
    `<digits>:<digits>:<digits>.<digits>`, each run non-empty. -/
def TimeFieldShape (t : List Char) : Prop :=
  ∃ h m s f, t = h ++ ':' :: m ++ ':' :: s ++ '.' :: f ∧
    h ≠ [] ∧ m ≠ [] ∧ s ≠ [] ∧ f ≠ [] ∧
    h.all Char.isDigit = true ∧ m.all Char.isDigit = true ∧
    s.all Char.isDigit = true ∧ f.all Char.isDigit = true

/-- Spec-side structural pattern of a timestamp line (claim C7):
    `Dialogue: <digits>,<H:MM:SS.cc>,<H:MM:SS.cc>,<rest>` — the literal
    prefix token, a non-empty numeric style-layer index, exactly two
    Format-B time fields, then a non-empty arbitrary remainder. -/
def AssShape (line pre t1 t2 rest : List Char) : Prop :=
  ∃ idx, pre = dialogueLead ++ idx ++ [','] ∧ idx ≠ [] ∧
    idx.all Char.isDigit = true ∧
    line = pre ++ t1 ++ ',' :: t2 ++ ',' :: rest ∧
    TimeFieldShape t1 ∧ TimeFieldShape t2 ∧ rest ≠ []

/-- Side condition for additivity of `shift_srt` on one line: the line is
    already newline-normalised (no trailing `'\r'`) and, if it is a
    recognized timestamp line, the first shift does not clamp it. -/
def srtLineOk (o : Int) (l : List Char) : Bool :=
  decide (stripCR l = l) &&
    match srtTimes l with
    | some (s, e) => decide (0 ≤ s + o) && decide (0 ≤ e + o)
    | none => true

/-- Side condition for additivity of `shift_ass` on one line. -/
def assLineOk (o : Int) (l : List Char) : Bool :=
  decide (stripCR l = l) &&
    match assTimes l with
    | some (s, e) => decide (0 ≤ s + o) && decide (0 ≤ e + o)
    | none => true

/-! ## Lemmas: decimal digit strings -/

theorem isDigit_digitChar {n : Nat} (h : n < 10) : (digitChar n).isDigit = true := by
  interval_cases n <;> decide

theorem digitVal_digitChar {n : Nat} (h : n < 10) : digitVal (digitChar n) = n := by
  interval_cases n <;> decide

theorem digit_ne {c : Char} (hc : c.isDigit = true) {d : Char}
    (hd : d.isDigit = false) : c ≠ d := by
  rintro rfl; rw [hc] at hd; cases hd

theorem natDigitsGo_append (fuel : Nat) :
    ∀ n acc, natDigitsGo fuel n acc = natDigitsGo fuel n [] ++ acc := by
  induction fuel with
  | zero => intro n acc; rfl
  | succ f ih =>
    intro n acc
    by_cases h : n < 10
    · simp [natDigitsGo, h]
    · simp only [natDigitsGo, if_neg h]
      rw [ih (n / 10) (digitChar (n % 10) :: acc), ih (n / 10) [digitChar (n % 10)]]
      simp

theorem natDigitsGo_fuel (n : Nat) : ∀ f1 f2 acc, n < f1 → n < f2 →
    natDigitsGo f1 n acc = natDigitsGo f2 n acc := by
  induction n using Nat.strong_induction_on with
  | _ n ih =>
    intro f1 f2 acc h1 h2
    match f1, f2 with
    | g1 + 1, g2 + 1 =>
      by_cases h : n < 10
      · simp [natDigitsGo, h]
      · simp only [natDigitsGo, if_neg h]
        exact ih (n / 10) (by omega) g1 g2 _ (by omega) (by omega)

theorem natDigits_lt {n : Nat} (h : n < 10) : natDigits n = [digitChar n] := by
  simp [natDigits, natDigitsGo, h]

theorem natDigits_ge {n : Nat} (h : 10 ≤ n) :
    natDigits n = natDigits (n / 10) ++ [digitChar (n % 10)] := by
  show natDigitsGo (n + 1) n [] = _
  rw [natDigitsGo, if_neg (by omega)]
  rw [natDigitsGo_append]
  congr 1
  exact natDigitsGo_fuel (n / 10) n (n / 10 + 1) [] (by omega) (by omega)

theorem natDigits_ne_nil (n : Nat) : natDigits n ≠ [] := by
  rcases Nat.lt_or_ge n 10 with h | h
  · simp [natDigits_lt h]
  · simp [natDigits_ge h]

theorem natDigits_all_digit (n : Nat) : (natDigits n).all Char.isDigit = true := by
  induction n using Nat.strong_induction_on with
  | _ n ih =>
    rcases Nat.lt_or_ge n 10 with h | h
    · simp [natDigits_lt h, isDigit_digitChar h]
    · rw [natDigits_ge h]
      simp [List.all_append, ih (n / 10) (by omega),
        isDigit_digitChar (Nat.mod_lt n (by omega))]

theorem foldl_natDigits (n : Nat) : ∀ a : Nat,
    (natDigits n).foldl (fun a c => a * 10 + digitVal c) a =
      a * 10 ^ (natDigits n).length + n := by
  induction n using Nat.strong_induction_on with
  | _ n ih =>
    intro a
    rcases Nat.lt_or_ge n 10 with h | h
    · rw [natDigits_lt h]
      simp [digitVal_digitChar h]
    · rw [natDigits_ge h, List.foldl_append, ih (n / 10) (by omega) a]
      simp only [List.foldl_cons, List.foldl_nil, List.length_append,
        List.length_singleton]
      rw [digitVal_digitChar (Nat.mod_lt n (by omega)), pow_succ]
      have hdm : 10 * (n / 10) + n % 10 = n := Nat.div_add_mod n 10
      calc (a * 10 ^ (natDigits (n / 10)).length + n / 10) * 10 + n % 10
          = a * (10 ^ (natDigits (n / 10)).length * 10) +
              (10 * (n / 10) + n % 10) := by ring
        _ = a * (10 ^ (natDigits (n / 10)).length * 10) + n := by rw [hdm]

theorem digitsToNat_natDigits (n : Nat) : digitsToNat (natDigits n) = n := by
  have := foldl_natDigits n 0
  simpa [digitsToNat] using this

theorem foldl_zeros (k : Nat) :
    (List.replicate k '0').foldl (fun a c => a * 10 + digitVal c) 0 = 0 := by
  induction k with
  | zero => rfl
  | succ k ih =>
    rw [List.replicate_succ, List.foldl_cons]
    have h0 : (0 : Nat) * 10 + digitVal '0' = 0 := by decide
    rw [h0]; exact ih

theorem digitsToNat_padZero (w : Nat) (l : List Char) :
    digitsToNat (padZero w l) = digitsToNat l := by
  unfold padZero digitsToNat
  rw [List.foldl_append, foldl_zeros]

theorem padZero_all_digit {l : List Char} (h : l.all Char.isDigit = true)
    (w : Nat) : (padZero w l).all Char.isDigit = true := by
  unfold padZero
  rw [List.all_append, h]
  simp only [Bool.and_true]
  rw [List.all_eq_true]
  intro c hc
  rw [List.eq_of_mem_replicate hc]
  decide

theorem padZero_ne_nil {l : List Char} (h : l ≠ []) (w : Nat) :
    padZero w l ≠ [] := by
  unfold padZero
  intro he
  exact h (List.append_eq_nil.mp he).2

theorem padZero_one {l : List Char} (h : l ≠ []) : padZero 1 l = l := by
  unfold padZero
  have h1 : 1 - l.length = 0 := by
    cases l with
    | nil => exact absurd rfl h
    | cons a t => simp
  rw [h1]
  rfl

/-! ## Lemmas: `parseI64` and `splitOnPred` -/

theorem parseI64_digits {l : List Char} (hne : l ≠ [])
    (hd : l.all Char.isDigit = true) :
    parseI64 l = some ((digitsToNat l : Nat) : Int) := by
  have hopt : parseDigitsOpt l = some (digitsToNat l) := by
    unfold parseDigitsOpt
    rw [if_pos ⟨hne, hd⟩]
  match l, hne with
  | c :: cs, _ =>
    have hc : c.isDigit = true := by
      simp only [List.all_cons, Bool.and_eq_true] at hd
      exact hd.1
    have hplus : c ≠ '+' := digit_ne hc (by decide)
    have hminus : c ≠ '-' := digit_ne hc (by decide)
    rw [parseI64.eq_def]
    split
    · simp_all
    · rename_i heq; injection heq with h1 _; exact absurd h1 hplus
    · rename_i heq; injection heq with h1 _; exact absurd h1 hminus
    · simp [hopt]

theorem splitOnPred_ne_nil (p : Char → Bool) (l : List Char) :
    splitOnPred p l ≠ [] := by
  cases l with
  | nil => simp [splitOnPred]
  | cons c cs =>
    rw [splitOnPred]
    by_cases h : p c
    · simp [h]
    · simp only [if_neg h]
      cases splitOnPred p cs <;> simp

theorem splitOnPred_sep (p : Char → Bool) (s : Char) (hs : p s = true) :
    ∀ (a rest : List Char), (∀ c ∈ a, p c = false) →
      splitOnPred p (a ++ s :: rest) = a :: splitOnPred p rest := by
  intro a
  induction a with
  | nil =>
    intro rest _
    simp [splitOnPred, hs]
  | cons c a ih =>
    intro rest ha
    have hc : p c = false := ha c (by simp)
    rw [List.cons_append, splitOnPred, if_neg (by simp [hc])]
    rw [ih rest (fun y hy => ha y (by simp [hy]))]

theorem splitOnPred_nosep (p : Char → Bool) : ∀ (l : List Char),
    (∀ c ∈ l, p c = false) → splitOnPred p l = [l] := by
  intro l
  induction l with
  | nil => intro _; rfl
  | cons c cs ih =>
    intro h
    rw [splitOnPred, if_neg (by simp [h c (by simp)])]
    rw [ih (fun y hy => h y (by simp [hy]))]

theorem splitOnPred_mem (p : Char → Bool) : ∀ (l : List Char),
    ∀ piece ∈ splitOnPred p l, ∀ c ∈ piece, p c = false := by
  intro l
  induction l with
  | nil =>
    intro piece hp c hc
    simp [splitOnPred] at hp
    subst hp
    simp at hc
  | cons x xs ih =>
    intro piece hp c hc
    rw [splitOnPred] at hp
    by_cases h : p x
    · rw [if_pos h] at hp
      rcases List.mem_cons.mp hp with h1 | h1
      · subst h1; simp at hc
      · exact ih piece h1 c hc
    · rw [if_neg h] at hp
      rcases hsp : splitOnPred p xs with _ | ⟨t, ts⟩
      · exact absurd hsp (splitOnPred_ne_nil p xs)
      · rw [hsp] at hp
        rcases List.mem_cons.mp hp with h1 | h1
        · subst h1
          rcases List.mem_cons.mp hc with h2 | h2
          · subst h2; simpa using h
          · exact ih t (by rw [hsp]; simp) c h2
        · exact ih piece (by rw [hsp]; simp [h1]) c hc

/-! ## Lemmas: formatting on non-negative values -/

theorem fmtIntPad_ofNat (w n : Nat) :
    fmtIntPad w ((n : Nat) : Int) = padZero w (natDigits n) := by
  unfold fmtIntPad
  rw [if_neg (by exact_mod_cast Int.not_lt.mpr (Int.ofNat_nonneg n))]
  rw [Int.toNat_ofNat]

theorem format_srt_ofNat (n : Nat) :
    format_timestamp_srt ((n : Nat) : Int) =
      canonA (n / 3600000) (n % 3600000 / 60000) (n % 60000 / 1000) (n % 1000) := by
  have step : format_timestamp_srt ((n : Nat) : Int) =
      fmtIntPad 2 ((↑(n / 3600000) : Int)) ++ ':' ::
      fmtIntPad 2 ((↑(n % 3600000 / 60000) : Int)) ++ ':' ::
      fmtIntPad 2 ((↑(n % 60000 / 1000) : Int)) ++ ',' ::
      fmtIntPad 3 ((↑(n % 1000) : Int)) := rfl
  rw [step, fmtIntPad_ofNat, fmtIntPad_ofNat, fmtIntPad_ofNat, fmtIntPad_ofNat]
  rfl

theorem format_ass_ofNat (n : Nat) :
    format_timestamp_ass ((n : Nat) : Int) =
      canonB (n / 3600000) (n % 3600000 / 60000) (n % 60000 / 1000) (n % 1000 / 10) := by
  have step : format_timestamp_ass ((n : Nat) : Int) =
      fmtIntPad 1 ((↑(n / 3600000) : Int)) ++ ':' ::
      fmtIntPad 2 ((↑(n % 3600000 / 60000) : Int)) ++ ':' ::
      fmtIntPad 2 ((↑(n % 60000 / 1000) : Int)) ++ '.' ::
      fmtIntPad 2 ((↑(n % 1000 / 10) : Int)) := rfl
  rw [step, fmtIntPad_ofNat, fmtIntPad_ofNat, fmtIntPad_ofNat, fmtIntPad_ofNat]
  rw [padZero_one (natDigits_ne_nil _)]
  rfl

/-! ## Lemmas: parsing canonical timestamps -/

theorem pad_digit_not_sepSrt (w n : Nat) :
    ∀ c ∈ padZero w (natDigits n), sepSrt c = false := by
  intro c hc
  have hdig := List.all_eq_true.mp (padZero_all_digit (natDigits_all_digit n) w) c hc
  have h1 : c ≠ ':' := digit_ne hdig (by decide)
  have h2 : c ≠ ',' := digit_ne hdig (by decide)
  simp [sepSrt, h1, h2]

theorem pad_digit_not_sepAss (w n : Nat) :
    ∀ c ∈ padZero w (natDigits n), sepAss c = false := by
  intro c hc
  have hdig := List.all_eq_true.mp (padZero_all_digit (natDigits_all_digit n) w) c hc
  have h1 : c ≠ ':' := digit_ne hdig (by decide)
  have h2 : c ≠ '.' := digit_ne hdig (by decide)
  simp [sepAss, h1, h2]

theorem parseI64_pad (w n : Nat) :
    parseI64 (padZero w (natDigits n)) = some ((n : Nat) : Int) := by
  rw [parseI64_digits (padZero_ne_nil (natDigits_ne_nil n) w)
    (padZero_all_digit (natDigits_all_digit n) w)]
  rw [digitsToNat_padZero, digitsToNat_natDigits]

theorem parse_canonA (h m s mm : Nat) :
    parse_timestamp_srt (canonA h m s mm) =
      some ((h : Int) * 3600000 + (m : Int) * 60000 + (s : Int) * 1000 + (mm : Int)) := by
  unfold parse_timestamp_srt canonA
  simp only [List.cons_append, List.append_assoc]
  rw [splitOnPred_sep sepSrt ':' (by decide) _ _ (pad_digit_not_sepSrt 2 h)]
  rw [splitOnPred_sep sepSrt ':' (by decide) _ _ (pad_digit_not_sepSrt 2 m)]
  rw [splitOnPred_sep sepSrt ',' (by decide) _ _ (pad_digit_not_sepSrt 2 s)]
  rw [splitOnPred_nosep sepSrt _ (pad_digit_not_sepSrt 3 mm)]
  simp [parseI64_pad]

theorem parse_canonB (h m s cc : Nat) :
    parse_timestamp_ass (canonB h m s cc) =
      some ((h : Int) * 3600000 + (m : Int) * 60000 + (s : Int) * 1000 + (cc : Int) * 10) := by
  unfold parse_timestamp_ass canonB
  rw [show natDigits h = padZero 1 (natDigits h) from (padZero_one (natDigits_ne_nil h)).symm]
  simp only [List.cons_append, List.append_assoc]
  rw [splitOnPred_sep sepAss ':' (by decide) _ _ (pad_digit_not_sepAss 1 h)]
  rw [splitOnPred_sep sepAss ':' (by decide) _ _ (pad_digit_not_sepAss 2 m)]
  rw [splitOnPred_sep sepAss '.' (by decide) _ _ (pad_digit_not_sepAss 2 s)]
  rw [splitOnPred_nosep sepAss _ (pad_digit_not_sepAss 2 cc)]
  simp [parseI64_pad]

/-! ## Round trips -/

theorem roundtrip_canonA {h m s mm : Nat} (hm : m < 60) (hs : s < 60)
    (hmm : mm < 1000) :
    (parse_timestamp_srt (canonA h m s mm)).map format_timestamp_srt =
      some (canonA h m s mm) := by
  rw [parse_canonA, Option.map_some']
  congr 1
  have hv : ((h : Int) * 3600000 + (m : Int) * 60000 + (s : Int) * 1000 + (mm : Int)) =
      ((h * 3600000 + m * 60000 + s * 1000 + mm : Nat) : Int) := by push_cast; ring
  rw [hv, format_srt_ofNat]
  have e1 : (h * 3600000 + m * 60000 + s * 1000 + mm) / 3600000 = h := by omega
  have e2 : (h * 3600000 + m * 60000 + s * 1000 + mm) % 3600000 / 60000 = m := by omega
  have e3 : (h * 3600000 + m * 60000 + s * 1000 + mm) % 60000 / 1000 = s := by omega
  have e4 : (h * 3600000 + m * 60000 + s * 1000 + mm) % 1000 = mm := by omega
  rw [e1, e2, e3, e4]

theorem roundtrip_canonB {h m s cc : Nat} (hm : m < 60) (hs : s < 60)
    (hcc : cc < 100) :
    (parse_timestamp_ass (canonB h m s cc)).map format_timestamp_ass =
      some (canonB h m s cc) := by
  rw [parse_canonB, Option.map_some']
  congr 1
  have hv : ((h : Int) * 3600000 + (m : Int) * 60000 + (s : Int) * 1000 + (cc : Int) * 10) =
      ((h * 3600000 + m * 60000 + s * 1000 + cc * 10 : Nat) : Int) := by push_cast; ring
  rw [hv, format_ass_ofNat]
  have e1 : (h * 3600000 + m * 60000 + s * 1000 + cc * 10) / 3600000 = h := by omega
  have e2 : (h * 3600000 + m * 60000 + s * 1000 + cc * 10) % 3600000 / 60000 = m := by omega
  have e3 : (h * 3600000 + m * 60000 + s * 1000 + cc * 10) % 60000 / 1000 = s := by omega
  have e4 : (h * 3600000 + m * 60000 + s * 1000 + cc * 10) % 1000 / 10 = cc := by omega
  rw [e1, e2, e3, e4]

theorem parse_format_srt (n : Nat) :
    parse_timestamp_srt (format_timestamp_srt ((n : Nat) : Int)) =
      some ((n : Nat) : Int) := by
  rw [format_srt_ofNat, parse_canonA]
  congr 1
  have hn : (n / 3600000) * 3600000 + (n % 3600000 / 60000) * 60000 +
      (n % 60000 / 1000) * 1000 + n % 1000 = n := by omega
  push_cast
  exact_mod_cast congrArg (fun x : Nat => (x : Int)) hn

theorem parse_format_ass {n : Nat} (h10 : n % 10 = 0) :
    parse_timestamp_ass (format_timestamp_ass ((n : Nat) : Int)) =
      some ((n : Nat) : Int) := by
  rw [format_ass_ofNat, parse_canonB]
  congr 1
  have hn : (n / 3600000) * 3600000 + (n % 3600000 / 60000) * 60000 +
      (n % 60000 / 1000) * 1000 + (n % 1000 / 10) * 10 = n := by omega
  push_cast
  exact_mod_cast congrArg (fun x : Nat => (x : Int)) hn

/-! ## Lemmas: `splitArrow` -/

theorem splitArrow_arrow (rest : List Char) :
    splitArrow (' ' :: '-' :: '-' :: '>' :: ' ' :: rest) = [] :: splitArrow rest := by
  rw [splitArrow]

theorem splitArrow_cons_ne {c : Char} (hc : c ≠ ' ') (cs : List Char) :
    splitArrow (c :: cs) =
      match splitArrow cs with
      | [] => [[c]]
      | t :: ts => (c :: t) :: ts := by
  rw [splitArrow.eq_def]
  split
  · rename_i heq
    injection heq with h1 _
    exact absurd h1 hc
  · rename_i c' cs' heq
    injection heq with h1 h2
    subst h1; subst h2
    rfl
  · rename_i heq
    cases heq

theorem splitArrow_nosep : ∀ (l : List Char), (∀ c ∈ l, c ≠ ' ') →
    splitArrow l = [l] := by
  intro l
  induction l with
  | nil => intro _; rfl
  | cons c cs ih =>
    intro h
    rw [splitArrow_cons_ne (h c (by simp)) cs]
    rw [ih (fun y hy => h y (by simp [hy]))]

theorem splitArrow_sep : ∀ (a : List Char), (∀ c ∈ a, c ≠ ' ') → ∀ b,
    splitArrow (a ++ (arrowSep ++ b)) = a :: splitArrow b := by
  intro a
  induction a with
  | nil =>
    intro _ b
    show splitArrow (' ' :: '-' :: '-' :: '>' :: ' ' :: b) = [] :: splitArrow b
    exact splitArrow_arrow b
  | cons c a ih =>
    intro h b
    rw [List.cons_append, splitArrow_cons_ne (h c (by simp)) _]
    rw [ih (fun y hy => h y (by simp [hy])) b]

/-! ## Lemmas: characters of formatted timestamps -/

theorem canonA_chars {h m s mm : Nat} :
    ∀ c ∈ canonA h m s mm, c.isDigit = true ∨ c = ':' ∨ c = ',' := by
  have pd : ∀ (w n : Nat) (c : Char), c ∈ padZero w (natDigits n) →
      c.isDigit = true :=
    fun w n c hc =>
      List.all_eq_true.mp (padZero_all_digit (natDigits_all_digit n) w) c hc
  intro c hc
  unfold canonA at hc
  simp only [List.cons_append, List.append_assoc, List.mem_append,
    List.mem_cons] at hc
  rcases hc with h1 | rfl | h1 | rfl | h1 | rfl | h1
  · exact Or.inl (pd _ _ _ h1)
  · exact Or.inr (Or.inl rfl)
  · exact Or.inl (pd _ _ _ h1)
  · exact Or.inr (Or.inl rfl)
  · exact Or.inl (pd _ _ _ h1)
  · exact Or.inr (Or.inr rfl)
  · exact Or.inl (pd _ _ _ h1)

theorem canonB_chars {h m s cc : Nat} :
    ∀ c ∈ canonB h m s cc, c.isDigit = true ∨ c = ':' ∨ c = '.' := by
  have pd : ∀ (w n : Nat) (c : Char), c ∈ padZero w (natDigits n) →
      c.isDigit = true :=
    fun w n c hc =>
      List.all_eq_true.mp (padZero_all_digit (natDigits_all_digit n) w) c hc
  intro c hc
  unfold canonB at hc
  rw [show natDigits h = padZero 1 (natDigits h)
    from (padZero_one (natDigits_ne_nil h)).symm] at hc
  simp only [List.cons_append, List.append_assoc, List.mem_append,
    List.mem_cons] at hc
  rcases hc with h1 | rfl | h1 | rfl | h1 | rfl | h1
  · exact Or.inl (pd _ _ _ h1)
  · exact Or.inr (Or.inl rfl)
  · exact Or.inl (pd _ _ _ h1)
  · exact Or.inr (Or.inl rfl)
  · exact Or.inl (pd _ _ _ h1)
  · exact Or.inr (Or.inr rfl)
  · exact Or.inl (pd _ _ _ h1)

theorem format_srt_chars {v : Int} (hv : 0 ≤ v) :
    ∀ c ∈ format_timestamp_srt v, c.isDigit = true ∨ c = ':' ∨ c = ',' := by
  rw [show v = ((v.toNat : Nat) : Int) from (Int.toNat_of_nonneg hv).symm,
    format_srt_ofNat]
  exact canonA_chars

theorem format_ass_chars {v : Int} (hv : 0 ≤ v) :
    ∀ c ∈ format_timestamp_ass v, c.isDigit = true ∨ c = ':' ∨ c = '.' := by
  rw [show v = ((v.toNat : Nat) : Int) from (Int.toNat_of_nonneg hv).symm,
    format_ass_ofNat]
  exact canonB_chars

theorem format_srt_no_space {v : Int} (hv : 0 ≤ v) :
    ∀ c ∈ format_timestamp_srt v, c ≠ ' ' := by
  intro c hc
  rcases format_srt_chars hv c hc with h1 | rfl | rfl
  · exact digit_ne h1 (by decide)
  · decide
  · decide

/-! ## Lemmas: reparsing a rewritten SRT line -/

theorem srtFields_format {v w : Int} (hv : 0 ≤ v) (hw : 0 ≤ w) :
    srtFields (format_timestamp_srt v ++ arrowSep ++ format_timestamp_srt w) =
      some (format_timestamp_srt v, format_timestamp_srt w) := by
  unfold srtFields
  rw [List.append_assoc, splitArrow_sep _ (format_srt_no_space hv) _,
    splitArrow_nosep _ (format_srt_no_space hw)]

theorem srtTimes_format {v w : Int} (hv : 0 ≤ v) (hw : 0 ≤ w) :
    srtTimes (format_timestamp_srt v ++ arrowSep ++ format_timestamp_srt w) =
      some (v, w) := by
  have pv : parse_timestamp_srt (format_timestamp_srt v) = some v := by
    rw [show v = ((v.toNat : Nat) : Int) from (Int.toNat_of_nonneg hv).symm]
    exact parse_format_srt v.toNat
  have pw : parse_timestamp_srt (format_timestamp_srt w) = some w := by
    rw [show w = ((w.toNat : Nat) : Int) from (Int.toNat_of_nonneg hw).symm]
    exact parse_format_srt w.toNat
  unfold srtTimes
  rw [srtFields_format hv hw]
  simp [pv, pw]

theorem shiftSrtLine_some {line : List Char} {s e : Int}
    (ht : srtTimes line = some (s, e)) (o : Int) :
    shiftSrtLine o line =
      format_timestamp_srt (max (s + o) 0) ++ arrowSep ++
        format_timestamp_srt (max (e + o) 0) := by
  unfold shiftSrtLine
  rw [ht]

theorem shiftSrtLine_none {line : List Char}
    (ht : srtTimes line = none) (o : Int) : shiftSrtLine o line = line := by
  unfold shiftSrtLine
  rw [ht]

theorem shiftSrtLine_additive {line : List Char} {o1 : Int}
    (h : ∀ s e, srtTimes line = some (s, e) → 0 ≤ s + o1 ∧ 0 ≤ e + o1)
    (o2 : Int) :
    shiftSrtLine o2 (shiftSrtLine o1 line) = shiftSrtLine (o1 + o2) line := by
  rcases ht : srtTimes line with _ | ⟨s, e⟩
  · rw [shiftSrtLine_none ht, shiftSrtLine_none ht, shiftSrtLine_none ht]
  · obtain ⟨hs, he⟩ := h s e ht
    rw [shiftSrtLine_some ht o1]
    rw [max_eq_left hs, max_eq_left he]
    rw [shiftSrtLine_some (srtTimes_format hs he) o2]
    rw [shiftSrtLine_some ht (o1 + o2)]
    rw [add_assoc, add_assoc]

/-! ## Lemmas: the dialogue-line parser -/

theorem all_takeWhile (p : Char → Bool) (l : List Char) :
    (l.takeWhile p).all p = true := by
  induction l with
  | nil => rfl
  | cons c cs ih =>
    by_cases h : p c
    · rw [List.takeWhile_cons_of_pos h]
      simp [h, ih]
    · rw [List.takeWhile_cons_of_neg h]
      rfl

theorem takeWhile_digits_append {a : List Char} (ha : a.all Char.isDigit = true)
    {c : Char} (hc : c.isDigit = false) (b : List Char) :
    (a ++ c :: b).takeWhile Char.isDigit = a := by
  induction a with
  | nil =>
    rw [List.nil_append]
    exact List.takeWhile_cons_of_neg (by simp [hc])
  | cons x xs ih =>
    simp only [List.all_cons, Bool.and_eq_true] at ha
    rw [List.cons_append, List.takeWhile_cons_of_pos ha.1, ih ha.2]

theorem dropWhile_digits_append {a : List Char} (ha : a.all Char.isDigit = true)
    {c : Char} (hc : c.isDigit = false) (b : List Char) :
    (a ++ c :: b).dropWhile Char.isDigit = c :: b := by
  induction a with
  | nil =>
    rw [List.nil_append]
    exact List.dropWhile_cons_of_neg (by simp [hc])
  | cons x xs ih =>
    simp only [List.all_cons, Bool.and_eq_true] at ha
    rw [List.cons_append, List.dropWhile_cons_of_pos ha.1, ih ha.2]

theorem digitsThen_append {a : List Char} (hne : a ≠ [])
    (ha : a.all Char.isDigit = true) {c : Char} (hc : c.isDigit = false)
    (b : List Char) : digitsThen c (a ++ c :: b) = some (a, b) := by
  unfold digitsThen
  rw [dropWhile_digits_append ha hc]
  simp [takeWhile_digits_append ha hc, hne]

theorem digitsThen_eq_some {c : Char} {l run rest : List Char}
    (h : digitsThen c l = some (run, rest)) :
    l = run ++ c :: rest ∧ run ≠ [] ∧ run.all Char.isDigit = true := by
  unfold digitsThen at h
  split at h
  · rename_i d rest' hdw
    split at h
    · rename_i hcond
      injection h with h1
      injection h1 with h2 h3
      subst h2; subst h3
      refine ⟨?_, hcond.1, all_takeWhile Char.isDigit l⟩
      rw [← hcond.2, ← hdw]
      exact (List.takeWhile_append_dropWhile Char.isDigit l).symm
    · cases h
  · cases h

theorem timeFieldShape_canonB (h m s cc : Nat) : TimeFieldShape (canonB h m s cc) := by
  refine ⟨natDigits h, padZero 2 (natDigits m), padZero 2 (natDigits s),
    padZero 2 (natDigits cc), rfl, natDigits_ne_nil h,
    padZero_ne_nil (natDigits_ne_nil m) 2, padZero_ne_nil (natDigits_ne_nil s) 2,
    padZero_ne_nil (natDigits_ne_nil cc) 2, natDigits_all_digit h,
    padZero_all_digit (natDigits_all_digit m) 2,
    padZero_all_digit (natDigits_all_digit s) 2,
    padZero_all_digit (natDigits_all_digit cc) 2⟩

theorem timeFieldThen_shaped {t : List Char} (hT : TimeFieldShape t)
    {c : Char} (hc : c.isDigit = false) (tail : List Char) :
    timeFieldThen c (t ++ c :: tail) = some (t, tail) := by
  obtain ⟨h, m, s, f, rfl, hh, hm, hs, hf, ah, am, as_, af⟩ := hT
  have hcolon : (':').isDigit = false := by decide
  have hdot : ('.').isDigit = false := by decide
  unfold timeFieldThen
  simp only [List.cons_append, List.append_assoc,
    digitsThen_append hh ah hcolon, digitsThen_append hm am hcolon,
    digitsThen_append hs as_ hdot, digitsThen_append hf af hc]

theorem timeFieldThen_eq_some {c : Char} {l t rest : List Char}
    (h : timeFieldThen c l = some (t, rest)) :
    l = t ++ c :: rest ∧ TimeFieldShape t := by
  unfold timeFieldThen at h
  split at h
  · cases h
  · rename_i h1 r1 hd1
    split at h
    · cases h
    · rename_i m1 r2 hd2
      split at h
      · cases h
      · rename_i s1 r3 hd3
        split at h
        · cases h
        · rename_i f1 r4 hd4
          obtain ⟨e1, hne1, ha1⟩ := digitsThen_eq_some hd1
          obtain ⟨e2, hne2, ha2⟩ := digitsThen_eq_some hd2
          obtain ⟨e3, hne3, ha3⟩ := digitsThen_eq_some hd3
          obtain ⟨e4, hne4, ha4⟩ := digitsThen_eq_some hd4
          injection h with h5
          injection h5 with h6 h7
          subst h6; subst h7
          constructor
          · rw [e1, e2, e3, e4]
            simp [List.cons_append, List.append_assoc]
          · exact ⟨h1, m1, s1, f1, rfl, hne1, hne2, hne3, hne4,
              ha1, ha2, ha3, ha4⟩

theorem isPrefixOf_append (l t : List Char) : l.isPrefixOf (l ++ t) = true := by
  rw [List.isPrefixOf_iff_prefix]
  exact List.prefix_append l t

theorem assMatch_shaped {line pre t1 t2 rest : List Char}
    (hS : AssShape line pre t1 t2 rest)
    (hnl : rest.all (fun c => c ≠ '\n') = true) :
    assMatch line = some (pre, t1, t2, rest) := by
  obtain ⟨idx, hpre, hidx, hdig, hline, hT1, hT2, hrest⟩ := hS
  subst hpre
  subst hline
  have hcomma : (',').isDigit = false := by decide
  unfold assMatch
  rw [show (dialogueLead ++ idx ++ [',']) ++ t1 ++ ',' :: t2 ++ ',' :: rest =
      dialogueLead ++ (idx ++ ',' :: (t1 ++ ',' :: (t2 ++ ',' :: rest))) from by
    simp [List.cons_append, List.append_assoc]]
  rw [if_pos (isPrefixOf_append _ _)]
  rw [List.drop_left]
  simp only [digitsThen_append hidx hdig hcomma,
    timeFieldThen_shaped hT1 hcomma, timeFieldThen_shaped hT2 hcomma]
  rw [if_pos ⟨hrest, hnl⟩]

theorem assMatch_shape {line pre t1 t2 rest : List Char}
    (h : assMatch line = some (pre, t1, t2, rest)) :
    AssShape line pre t1 t2 rest ∧ rest.all (fun c => c ≠ '\n') = true := by
  unfold assMatch at h
  split at h
  · rename_i hp
    split at h
    · cases h
    · rename_i idx r1 hd1
      split at h
      · cases h
      · rename_i t1' r2 hd2
        split at h
        · cases h
        · rename_i t2' r3 hd3
          split at h
          · rename_i hcond
            injection h with h5
            injection h5 with h6 h7
            injection h7 with h8 h9
            injection h9 with h10 h11
            subst h6; subst h8; subst h10; subst h11
            obtain ⟨e1, hne1, ha1⟩ := digitsThen_eq_some hd1
            obtain ⟨e2, hT1⟩ := timeFieldThen_eq_some hd2
            obtain ⟨e3, hT2⟩ := timeFieldThen_eq_some hd3
            have hlead : line = dialogueLead ++ line.drop dialogueLead.length := by
              obtain ⟨t, ht⟩ := List.isPrefixOf_iff_prefix.mp hp
              rw [← ht, List.drop_left]
            refine ⟨⟨idx, rfl, hne1, ha1, ?_, hT1, hT2, hcond.1⟩, hcond.2⟩
            rw [hlead, e1, e2, e3]
            simp [List.cons_append, List.append_assoc]
          · cases h
  · cases h

/-! ## Lemmas: `shiftAssLine` -/

theorem shiftAssLine_match {line pre t1 t2 rest : List Char} {s e : Int}
    (hm : assMatch line = some (pre, t1, t2, rest))
    (h1 : parse_timestamp_ass t1 = some s)
    (h2 : parse_timestamp_ass t2 = some e) (o : Int) :
    shiftAssLine o line =
      pre ++ format_timestamp_ass (max (s + o) 0) ++ ',' ::
        format_timestamp_ass (max (e + o) 0) ++ ',' :: rest := by
  simp only [shiftAssLine, hm, h1, h2]

theorem assTimes_eq_some {line : List Char} {s e : Int}
    (ht : assTimes line = some (s, e)) :
    ∃ pre t1 t2 rest, assMatch line = some (pre, t1, t2, rest) ∧
      parse_timestamp_ass t1 = some s ∧ parse_timestamp_ass t2 = some e := by
  unfold assTimes at ht
  split at ht
  · rename_i pre t1 t2 rest hm
    split at ht
    · rename_i s' e' hp1 hp2
      injection ht with h1
      injection h1 with h2 h3
      subst h2; subst h3
      exact ⟨pre, t1, t2, rest, hm, hp1, hp2⟩
    · cases ht
  · cases ht

theorem shiftAssLine_noTimes {line : List Char} (ht : assTimes line = none)
    (o : Int) : shiftAssLine o line = line := by
  rcases hm : assMatch line with _ | ⟨pre, t1, t2, rest⟩
  · simp only [shiftAssLine, hm]
  · simp only [assTimes, hm] at ht
    simp only [shiftAssLine, hm]
    rcases hp1 : parse_timestamp_ass t1 with _ | s
    · simp only [hp1]
    · rcases hp2 : parse_timestamp_ass t2 with _ | e
      · simp only [hp1, hp2]
      · rw [hp1, hp2] at ht
        simp at ht

theorem parse_ass_dvd {t : List Char} {v : Int}
    (h : parse_timestamp_ass t = some v) : (10 : Int) ∣ v := by
  unfold parse_timestamp_ass at h
  split at h
  · split at h
    · rename_i hours minutes seconds centis h0 h1 h2 h3
      injection h with h4
      exact ⟨hours * 360000 + minutes * 6000 + seconds * 100 + centis,
        by rw [← h4]; ring⟩
    · cases h
  · cases h

theorem parse_format_ass_int {v : Int} (hv : 0 ≤ v) (hd : (10 : Int) ∣ v) :
    parse_timestamp_ass (format_timestamp_ass v) = some v := by
  rw [show v = ((v.toNat : Nat) : Int) from (Int.toNat_of_nonneg hv).symm]
  apply parse_format_ass
  omega

theorem shiftAssLine_additive {line : List Char} {o1 : Int}
    (hdvd : (10 : Int) ∣ o1)
    (h : ∀ s e, assTimes line = some (s, e) → 0 ≤ s + o1 ∧ 0 ≤ e + o1)
    (o2 : Int) :
    shiftAssLine o2 (shiftAssLine o1 line) = shiftAssLine (o1 + o2) line := by
  rcases ht : assTimes line with _ | ⟨s, e⟩
  · rw [shiftAssLine_noTimes ht o1, shiftAssLine_noTimes ht o2,
      shiftAssLine_noTimes ht (o1 + o2)]
  · obtain ⟨pre, t1, t2, rest, hm, hp1, hp2⟩ := assTimes_eq_some ht
    obtain ⟨hs, he⟩ := h s e ht
    have hds : (10 : Int) ∣ s := parse_ass_dvd hp1
    have hde : (10 : Int) ∣ e := parse_ass_dvd hp2
    rw [shiftAssLine_match hm hp1 hp2 o1]
    rw [max_eq_left hs, max_eq_left he]
    obtain ⟨⟨idx, hpre, hidx, hdig, hline, hT1, hT2, hrest⟩, hnl⟩ :=
      assMatch_shape hm
    have hshape' : AssShape
        (pre ++ format_timestamp_ass (s + o1) ++ ',' ::
          format_timestamp_ass (e + o1) ++ ',' :: rest)
        pre (format_timestamp_ass (s + o1)) (format_timestamp_ass (e + o1))
        rest := by
      refine ⟨idx, hpre, hidx, hdig, rfl, ?_, ?_, hrest⟩
      · rw [show s + o1 = (((s + o1).toNat : Nat) : Int)
          from (Int.toNat_of_nonneg hs).symm, format_ass_ofNat]
        exact timeFieldShape_canonB _ _ _ _
      · rw [show e + o1 = (((e + o1).toNat : Nat) : Int)
          from (Int.toNat_of_nonneg he).symm, format_ass_ofNat]
        exact timeFieldShape_canonB _ _ _ _
    have hm' := assMatch_shaped hshape' hnl
    rw [shiftAssLine_match hm' (parse_format_ass_int hs (dvd_add hds hdvd))
      (parse_format_ass_int he (dvd_add hde hdvd)) o2]
    rw [shiftAssLine_match hm hp1 hp2 (o1 + o2)]
    rw [add_assoc, add_assoc]

/-! ## Lemmas: lines and documents -/

theorem mem_stripCR {c : Char} {l : List Char} (h : c ∈ stripCR l) : c ∈ l := by
  unfold stripCR at h
  split at h
  · exact (List.dropLast_sublist _).subset h
  · exact h

theorem rustLinesGo_mem : ∀ (ps : List (List Char)), ∀ l ∈ rustLinesGo ps,
    ∃ p ∈ ps, ∀ c ∈ l, c ∈ p := by
  intro ps
  induction ps with
  | nil => intro l hl; simp [rustLinesGo] at hl
  | cons p rest ih =>
    intro l hl
    cases rest with
    | nil =>
      rw [rustLinesGo] at hl
      split at hl
      · simp at hl
      · simp only [List.mem_singleton] at hl
        subst hl
        exact ⟨l, by simp, fun c hc => hc⟩
    | cons q qs =>
      rw [rustLinesGo] at hl
      rcases List.mem_cons.mp hl with rfl | h1
      · exact ⟨p, by simp, fun c hc => mem_stripCR hc⟩
      · obtain ⟨pp, hpp, hsub⟩ := ih l h1
        exact ⟨pp, by simp [hpp], hsub⟩

theorem rustLines_no_newline {s l : List Char} (hl : l ∈ rustLines s) :
    '\n' ∉ l := by
  unfold rustLines at hl
  obtain ⟨p, hp, hsub⟩ := rustLinesGo_mem _ l hl
  intro hc
  have := splitOnPred_mem (fun c => c = '\n') s p hp '\n' (hsub '\n' hc)
  simp at this

theorem unlines_rustLines : ∀ (ls : List (List Char)),
    (∀ l ∈ ls, '\n' ∉ l) → rustLines (unlines ls) = ls.map stripCR := by
  intro ls
  induction ls with
  | nil => intro _; rfl
  | cons l rest ih =>
    intro h
    have hl : '\n' ∉ l := h l (by simp)
    show rustLines (l ++ '\n' :: unlines rest) = stripCR l :: rest.map stripCR
    unfold rustLines
    rw [splitOnPred_sep _ '\n' (by simp) l _
      (fun c hc => by
        have : c ≠ '\n' := fun hcc => hl (hcc ▸ hc)
        simp [this])]
    rcases hsp : splitOnPred (fun c => c = '\n') (unlines rest) with _ | ⟨q, qs⟩
    · exact absurd hsp (splitOnPred_ne_nil _ _)
    · rw [rustLinesGo]
      have hgo : rustLinesGo (q :: qs) = rustLines (unlines rest) := by
        unfold rustLines; rw [hsp]
      rw [hgo, ih (fun y hy => h y (by simp [hy]))]

theorem rustLines_ne_nil {s : List Char} (h : s ≠ []) : rustLines s ≠ [] := by
  match s, h with
  | c :: cs, _ =>
    unfold rustLines
    rw [splitOnPred]
    by_cases hc : c = '\n'
    · rw [if_pos (by simp [hc])]
      rcases hsp : splitOnPred (fun c => c = '\n') cs with _ | ⟨q, qs⟩
      · exact absurd hsp (splitOnPred_ne_nil _ _)
      · rw [rustLinesGo]
        simp
    · rw [if_neg (by simp [hc])]
      rcases hsp : splitOnPred (fun c => c = '\n') cs with _ | ⟨q, qs⟩
      · exact absurd hsp (splitOnPred_ne_nil _ _)
      · cases qs with
        | nil =>
          rw [rustLinesGo]
          simp
        | cons q2 qs2 =>
          rw [rustLinesGo]
          simp

theorem unlines_ends : ∀ (ls : List (List Char)), ls ≠ [] →
    ∃ t, unlines ls = t ++ ['\n'] := by
  intro ls
  induction ls with
  | nil => intro h; exact absurd rfl h
  | cons l rest ih =>
    intro _
    cases rest with
    | nil => exact ⟨l, rfl⟩
    | cons q qs =>
      obtain ⟨t, ht⟩ := ih (by simp)
      refine ⟨l ++ '\n' :: t, ?_⟩
      show l ++ '\n' :: unlines (q :: qs) = (l ++ '\n' :: t) ++ ['\n']
      rw [ht]
      simp

theorem shiftSrtLine_no_newline {line : List Char} (h : '\n' ∉ line) (o : Int) :
    '\n' ∉ shiftSrtLine o line := by
  rcases ht : srtTimes line with _ | ⟨s, e⟩
  · rw [shiftSrtLine_none ht]; exact h
  · rw [shiftSrtLine_some ht]
    intro hmem
    simp only [List.mem_append] at hmem
    rcases hmem with (h1 | h1) | h1
    · rcases format_srt_chars (le_max_right (s + o) 0) '\n' h1 with hd | hc | hc
      · exact absurd hd (by decide)
      · cases hc
      · cases hc
    · simp [arrowSep] at h1
    · rcases format_srt_chars (le_max_right (e + o) 0) '\n' h1 with hd | hc | hc
      · exact absurd hd (by decide)
      · cases hc
      · cases hc

theorem shiftAssLine_no_newline {line : List Char} (h : '\n' ∉ line) (o : Int) :
    '\n' ∉ shiftAssLine o line := by
  rcases ht : assTimes line with _ | ⟨s, e⟩
  · rw [shiftAssLine_noTimes ht]; exact h
  · obtain ⟨pre, t1, t2, rest, hm, hp1, hp2⟩ := assTimes_eq_some ht
    obtain ⟨⟨idx, hpre, hidx, hdig, hline, hT1, hT2, hrest⟩, hnl⟩ :=
      assMatch_shape hm
    rw [shiftAssLine_match hm hp1 hp2 o]
    intro hmem
    simp only [List.mem_append, List.mem_cons] at hmem
    rcases hmem with ((hp | h1) | h1) | h1
    · subst hpre
      simp only [List.mem_append, List.mem_cons] at hp
      rcases hp with (hd | hi) | hcm
      · simp [dialogueLead] at hd
      · have := List.all_eq_true.mp hdig '\n' hi
        exact absurd this (by decide)
      · simp at hcm
    · rcases format_ass_chars (le_max_right (s + o) 0) '\n' h1 with hd | hc | hc
      · exact absurd hd (by decide)
      · cases hc
      · cases hc
    · rcases h1 with hc | h1
      · cases hc
      rcases format_ass_chars (le_max_right (e + o) 0) '\n' h1 with hd | hc | hc
      · exact absurd hd (by decide)
      · cases hc
      · cases hc
    · rcases h1 with hc | h1
      · cases hc
      have := List.all_eq_true.mp hnl '\n' h1
      simp at this

theorem shift_srt_lines (content : List Char) (o : Int) :
    rustLines (shift_srt content o) =
      (rustLines content).map (fun l => stripCR (shiftSrtLine o l)) := by
  unfold shift_srt
  rw [unlines_rustLines _ (fun l hl => by
    obtain ⟨l0, hl0, rfl⟩ := List.mem_map.mp hl
    exact shiftSrtLine_no_newline (rustLines_no_newline hl0) o)]
  rw [List.map_map]
  rfl

theorem shift_ass_lines (content : List Char) (o : Int) :
    rustLines (shift_ass content o) =
      (rustLines content).map (fun l => stripCR (shiftAssLine o l)) := by
  unfold shift_ass
  rw [unlines_rustLines _ (fun l hl => by
    obtain ⟨l0, hl0, rfl⟩ := List.mem_map.mp hl
    exact shiftAssLine_no_newline (rustLines_no_newline hl0) o)]
  rw [List.map_map]
  rfl

/-! ## Lemmas: lines already free of a trailing carriage return -/

theorem stripCR_of_getLast {l : List Char} (h : l.getLast? ≠ some '\r') :
    stripCR l = l := by
  unfold stripCR
  rw [if_neg h]

theorem getLast_ne_of_stripCR {l : List Char} (h : stripCR l = l) :
    l.getLast? ≠ some '\r' := by
  intro hlast
  unfold stripCR at h
  rw [if_pos hlast] at h
  have h1 : l ≠ [] := by
    rintro rfl
    cases hlast
  have h2 := congrArg List.length h
  rw [List.length_dropLast] at h2
  have h3 : 0 < l.length := List.length_pos.mpr h1
  omega

theorem getLast?_append_right {A B : List Char} (h : B ≠ []) :
    (A ++ B).getLast? = B.getLast? := by
  rw [List.getLast?_append]
  rcases hB : B.getLast? with _ | b
  · exact absurd (List.getLast?_eq_none_iff.mp hB) h
  · rfl

theorem format_srt_ne_nil (v : Int) : format_timestamp_srt v ≠ [] := by
  unfold format_timestamp_srt
  simp

theorem format_srt_getLast_ne {v : Int} (hv : 0 ≤ v) :
    (format_timestamp_srt v).getLast? ≠ some '\r' := by
  intro hlast
  have hmem : '\r' ∈ format_timestamp_srt v :=
    List.mem_of_mem_getLast? (hlast ▸ rfl)
  rcases format_srt_chars hv '\r' hmem with hd | hc | hc
  · exact absurd hd (by decide)
  · cases hc
  · cases hc

theorem shiftSrtLine_stripCR {l : List Char} (hl : stripCR l = l) (o : Int) :
    stripCR (shiftSrtLine o l) = shiftSrtLine o l := by
  rcases ht : srtTimes l with _ | ⟨s, e⟩
  · rw [shiftSrtLine_none ht]; exact hl
  · rw [shiftSrtLine_some ht]
    apply stripCR_of_getLast
    rw [List.append_assoc,
      getLast?_append_right (by simp [arrowSep]),
      getLast?_append_right (format_srt_ne_nil _)]
    exact format_srt_getLast_ne (le_max_right (e + o) 0)

theorem getLast?_line_shape (pre t1 t2 rest : List Char) {b : Char}
    (hb : b ∈ rest.getLast?) :
    b ∈ (pre ++ t1 ++ ',' :: t2 ++ ',' :: rest).getLast? :=
  List.mem_getLast?_append_of_mem_getLast? (List.mem_getLast?_cons hb)

theorem shiftAssLine_stripCR {l : List Char} (hl : stripCR l = l) (o : Int) :
    stripCR (shiftAssLine o l) = shiftAssLine o l := by
  rcases ht : assTimes l with _ | ⟨s, e⟩
  · rw [shiftAssLine_noTimes ht]; exact hl
  · obtain ⟨pre, t1, t2, rest, hm, hp1, hp2⟩ := assTimes_eq_some ht
    obtain ⟨⟨idx, hpre, hidx, hdig, hline, hT1, hT2, hrest⟩, hnl⟩ :=
      assMatch_shape hm
    rcases hb : rest.getLast? with _ | b
    · exact absurd (List.getLast?_eq_none_iff.mp hb) hrest
    have hbqr : b ∈ rest.getLast? := by rw [hb]; rfl
    have hbl : l.getLast? = some b := by
      have := getLast?_line_shape pre t1 t2 rest hbqr
      rw [hline]
      exact Option.mem_def.mp this
    have hbne : b ≠ '\r' := by
      intro hbr
      subst hbr
      exact getLast_ne_of_stripCR hl hbl
    rw [shiftAssLine_match hm hp1 hp2 o]
    apply stripCR_of_getLast
    have hnew := getLast?_line_shape pre (format_timestamp_ass (max (s + o) 0))
      (format_timestamp_ass (max (e + o) 0)) rest hbqr
    rw [Option.mem_def.mp hnew]
    intro hcontra
    injection hcontra with hcb
    exact hbne hcb

/-! ## Document-level additivity -/

theorem shift_srt_additive {content : List Char} {o1 : Int}
    (hok : ∀ l ∈ rustLines content, srtLineOk o1 l = true) (o2 : Int) :
    shift_srt (shift_srt content o1) o2 = shift_srt content (o1 + o2) := by
  have hmap : ∀ l ∈ rustLines content,
      shiftSrtLine o2 (stripCR (shiftSrtLine o1 l)) = shiftSrtLine (o1 + o2) l := by
    intro l hl
    have hok' := hok l hl
    unfold srtLineOk at hok'
    simp only [Bool.and_eq_true, decide_eq_true_eq] at hok'
    obtain ⟨hstrip, hcond⟩ := hok'
    have hbound : ∀ s e, srtTimes l = some (s, e) → 0 ≤ s + o1 ∧ 0 ≤ e + o1 := by
      intro s e htl
      rw [htl] at hcond
      simp only [Bool.and_eq_true, decide_eq_true_eq] at hcond
      exact hcond
    rw [shiftSrtLine_stripCR hstrip o1]
    exact shiftSrtLine_additive hbound o2
  calc shift_srt (shift_srt content o1) o2
      = unlines ((rustLines (shift_srt content o1)).map (shiftSrtLine o2)) := rfl
    _ = unlines (((rustLines content).map
          (fun l => stripCR (shiftSrtLine o1 l))).map (shiftSrtLine o2)) := by
        rw [shift_srt_lines]
    _ = unlines ((rustLines content).map
          (fun l => shiftSrtLine o2 (stripCR (shiftSrtLine o1 l)))) := by
        rw [List.map_map]
        rfl
    _ = unlines ((rustLines content).map (shiftSrtLine (o1 + o2))) := by
        rw [List.map_congr_left hmap]
    _ = shift_srt content (o1 + o2) := rfl

theorem shift_ass_additive {content : List Char} {o1 : Int}
    (hdvd : (10 : Int) ∣ o1)
    (hok : ∀ l ∈ rustLines content, assLineOk o1 l = true) (o2 : Int) :
    shift_ass (shift_ass content o1) o2 = shift_ass content (o1 + o2) := by
  have hmap : ∀ l ∈ rustLines content,
      shiftAssLine o2 (stripCR (shiftAssLine o1 l)) = shiftAssLine (o1 + o2) l := by
    intro l hl
    have hok' := hok l hl
    unfold assLineOk at hok'
    simp only [Bool.and_eq_true, decide_eq_true_eq] at hok'
    obtain ⟨hstrip, hcond⟩ := hok'
    have hbound : ∀ s e, assTimes l = some (s, e) → 0 ≤ s + o1 ∧ 0 ≤ e + o1 := by
      intro s e htl
      rw [htl] at hcond
      simp only [Bool.and_eq_true, decide_eq_true_eq] at hcond
      exact hcond
    rw [shiftAssLine_stripCR hstrip o1]
    exact shiftAssLine_additive hdvd hbound o2
  calc shift_ass (shift_ass content o1) o2
      = unlines ((rustLines (shift_ass content o1)).map (shiftAssLine o2)) := rfl
    _ = unlines (((rustLines content).map
          (fun l => stripCR (shiftAssLine o1 l))).map (shiftAssLine o2)) := by
        rw [shift_ass_lines]
    _ = unlines ((rustLines content).map
          (fun l => shiftAssLine o2 (stripCR (shiftAssLine o1 l)))) := by
        rw [List.map_map]
        rfl
    _ = unlines ((rustLines content).map (shiftAssLine (o1 + o2))) := by
        rw [List.map_congr_left hmap]
    _ = shift_ass content (o1 + o2) := rfl

/-! ## Lemmas: episode extraction -/

theorem extractGo_cons (p : EpPattern) (ps : List EpPattern) (f : List Char) :
    extractGo (p :: ps) f = ((runPattern p f).bind parseU32).or (extractGo ps f) := by
  have hstep : extractGo (p :: ps) f =
      match (runPattern p f).bind parseU32 with
      | some n => some n
      | none => extractGo ps f := rfl
  rw [hstep]
  rcases h : (runPattern p f).bind parseU32 with _ | n <;> rfl

/-! ## Claims -/

/-- **C1.**  For every line of a subtitle document, both formats, and every
    signed millisecond offset: the documents are rewritten line by line, and
    each rewritten timestamp value equals `max(0, originalMs + offset)`, so
    every timestamp written to the output is `≥ 0`, even for arbitrarily
    large negative offsets. -/
theorem claim1_shift_clamps (content line : List Char) (off : Int) :
    shift_srt content off = unlines ((rustLines content).map (shiftSrtLine off)) ∧
    shift_ass content off = unlines ((rustLines content).map (shiftAssLine off)) ∧
    (∀ s e, srtTimes line = some (s, e) →
      shiftSrtLine off line =
        format_timestamp_srt (max (s + off) 0) ++ arrowSep ++
          format_timestamp_srt (max (e + off) 0) ∧
      0 ≤ max (s + off) 0 ∧ 0 ≤ max (e + off) 0) ∧
    (∀ pre t1 t2 rest s e, assMatch line = some (pre, t1, t2, rest) →
      parse_timestamp_ass t1 = some s → parse_timestamp_ass t2 = some e →
      shiftAssLine off line =
        pre ++ format_timestamp_ass (max (s + off) 0) ++ ',' ::
          format_timestamp_ass (max (e + off) 0) ++ ',' :: rest ∧
      0 ≤ max (s + off) 0 ∧ 0 ≤ max (e + off) 0) := by
  refine ⟨rfl, rfl, ?_, ?_⟩
  · intro s e ht
    exact ⟨shiftSrtLine_some ht off, le_max_right _ 0, le_max_right _ 0⟩
  · intro pre t1 t2 rest s e hm h1 h2
    exact ⟨shiftAssLine_match hm h1 h2 off, le_max_right _ 0, le_max_right _ 0⟩

/-- Witness for C1 at concrete inputs (offsets that clamp to zero). -/
theorem claim1_witness :
    shiftSrtLine (-5000) ("00:00:01,000 --> 00:00:02,000".data) =
      ("00:00:00,000 --> 00:00:00,000".data) ∧
    shiftAssLine (-200) ("Dialogue: 0,0:00:10.50,0:00:12.00,Hello".data) =
      ("Dialogue: 0,0:00:10.30,0:00:11.80,Hello".data) := by
  constructor
  · have h := (claim1_shift_clamps [] ("00:00:01,000 --> 00:00:02,000".data)
      (-5000)).2.2.1 1000 2000 (by decide)
    rw [h.1]
    decide
  · have hA := (claim1_shift_clamps []
      ("Dialogue: 0,0:00:10.50,0:00:12.00,Hello".data) (-200)).2.2.2
    have hmA : assMatch ("Dialogue: 0,0:00:10.50,0:00:12.00,Hello".data) =
        some ("Dialogue: 0,".data, "0:00:10.50".data, "0:00:12.00".data,
          "Hello".data) := by decide
    have hpA : parse_timestamp_ass ("0:00:10.50".data) = some 10500 := by decide
    have hpB : parse_timestamp_ass ("0:00:12.00".data) = some 12000 := by decide
    have h := hA _ _ _ _ _ _ hmA hpA hpB
    rw [h.1]
    decide

/-- **C2.**  For every valid Format-A timestamp `HH:MM:SS,mmm` (fields in
    range, canonical zero padding: hours at least two digits, minutes and
    seconds two digits, milliseconds three digits), parsing then formatting
    reproduces the string exactly. -/
theorem claim2_roundtrip_srt (h m s mm : Nat) (hm : m < 60) (hs : s < 60)
    (hmm : mm < 1000) :
    (parse_timestamp_srt (canonA h m s mm)).map format_timestamp_srt =
      some (canonA h m s mm) :=
  roundtrip_canonA hm hs hmm

/-- Witness for C2 at `12:01:02,345`. -/
theorem claim2_witness :
    (parse_timestamp_srt (canonA 12 1 2 345)).map format_timestamp_srt =
      some (canonA 12 1 2 345) :=
  claim2_roundtrip_srt 12 1 2 345 (by decide) (by decide) (by decide)

/-- **C3.**  For every valid Format-B timestamp `H:MM:SS.cc` (fields in
    range, hours unpadded, minutes/seconds/centiseconds two digits; such a
    value is automatically centisecond-aligned), parsing then formatting
    reproduces the string exactly. -/
theorem claim3_roundtrip_ass (h m s cc : Nat) (hm : m < 60) (hs : s < 60)
    (hcc : cc < 100) :
    (parse_timestamp_ass (canonB h m s cc)).map format_timestamp_ass =
      some (canonB h m s cc) :=
  roundtrip_canonB hm hs hcc

/-- Witness for C3 at `1:02:03.45`. -/
theorem claim3_witness :
    (parse_timestamp_ass (canonB 1 2 3 45)).map format_timestamp_ass =
      some (canonB 1 2 3 45) :=
  claim3_roundtrip_ass 1 2 3 45 (by decide) (by decide) (by decide)

/-- **C4 (counterexample).**  Shift-then-shift does not always equal the
    combined shift, beyond clamping: (i) a final line ending in `'\r'`
    without a newline is normalised only by the second pass; (ii) ASS
    centisecond truncation loses sub-centisecond offsets; (iii) the
    documented case, clamping in the first pass. -/
theorem claim4_counterexample :
    shift_srt (shift_srt ("x\r".data) 0) 0 ≠ shift_srt ("x\r".data) (0 + 0) ∧
    shift_ass (shift_ass ("Dialogue: 0,0:00:00.00,0:00:00.00,A".data) 5) 5 ≠
      shift_ass ("Dialogue: 0,0:00:00.00,0:00:00.00,A".data) (5 + 5) ∧
    shift_srt (shift_srt ("00:00:00,005 --> 00:00:00,006".data) (-10)) 10 ≠
      shift_srt ("00:00:00,005 --> 00:00:00,006".data) (-10 + 10) :=
  ⟨by decide, by decide, by decide⟩

/-- **C4 (amended).**  Shifting by `o1` and then by `o2` equals shifting
    once by `o1 + o2`, provided every input line (as split by the line
    iterator) has no trailing `'\r'` and the first shift does not clamp any
    parsed timestamp; for `shift_ass` the first offset must additionally be
    centisecond-aligned (a multiple of 10 ms). -/
theorem claim4_additive_amended (content : List Char) (o1 o2 : Int) :
    ((∀ l ∈ rustLines content, srtLineOk o1 l = true) →
      shift_srt (shift_srt content o1) o2 = shift_srt content (o1 + o2)) ∧
    ((10 : Int) ∣ o1 → (∀ l ∈ rustLines content, assLineOk o1 l = true) →
      shift_ass (shift_ass content o1) o2 = shift_ass content (o1 + o2)) :=
  ⟨fun hok => shift_srt_additive hok o2,
   fun hdvd hok => shift_ass_additive hdvd hok o2⟩

/-- Witness for C4 (amended) on two-line documents. -/
theorem claim4_witness :
    shift_srt (shift_srt ("00:00:01,000 --> 00:00:02,000\nsub".data) (-500)) 200 =
      shift_srt ("00:00:01,000 --> 00:00:02,000\nsub".data) (-500 + 200) ∧
    shift_ass (shift_ass ("Dialogue: 0,0:00:10.50,0:00:12.00,Hello".data) (-500)) 200 =
      shift_ass ("Dialogue: 0,0:00:10.50,0:00:12.00,Hello".data) (-500 + 200) := by
  constructor
  · exact (claim4_additive_amended ("00:00:01,000 --> 00:00:02,000\nsub".data)
      (-500) 200).1 (by decide)
  · exact (claim4_additive_amended ("Dialogue: 0,0:00:10.50,0:00:12.00,Hello".data)
      (-500) 200).2 (by decide) (by decide)

/-- **C5.**  In both shift loops, every line that is not successfully
    rewritten as a timestamp line — it lacks the marker/structure, or the
    marker is present but a time field fails to parse (`srtTimes`/`assTimes`
    returns `none`) — is emitted with its content unchanged, for every
    offset. -/
theorem claim5_verbatim_fallback (line : List Char) (off : Int) :
    (srtTimes line = none → shiftSrtLine off line = line) ∧
    (assTimes line = none → shiftAssLine off line = line) :=
  ⟨fun ht => shiftSrtLine_none ht off, fun ht => shiftAssLine_noTimes ht off⟩

/-- Witness for C5: a plain text line, and a `Dialogue:` line whose style
    index is not numeric. -/
theorem claim5_witness :
    shiftSrtLine 250 ("subtitle text".data) = ("subtitle text".data) ∧
    shiftAssLine 250 ("Dialogue: zero,0:00:01.00,0:00:02.00,Hi".data) =
      ("Dialogue: zero,0:00:01.00,0:00:02.00,Hi".data) := by
  constructor
  · exact (claim5_verbatim_fallback ("subtitle text".data) 250).1 (by decide)
  · exact (claim5_verbatim_fallback
      ("Dialogue: zero,0:00:01.00,0:00:02.00,Hi".data) 250).2 (by decide)

/-- **C6.**  Both shift functions emit exactly one output line per input
    line, in order (the output's lines are the processed input lines, with
    at most trailing-`'\r'` normalisation), and terminate every output
    line — including the last — with a newline, regardless of whether the
    source's final line had one. -/
theorem claim6_line_structure (content : List Char) (off : Int) :
    rustLines (shift_srt content off) =
      (rustLines content).map (fun l => stripCR (shiftSrtLine off l)) ∧
    rustLines (shift_ass content off) =
      (rustLines content).map (fun l => stripCR (shiftAssLine off l)) ∧
    (content ≠ [] →
      (∃ t, shift_srt content off = t ++ ['\n']) ∧
      (∃ t, shift_ass content off = t ++ ['\n'])) := by
  refine ⟨shift_srt_lines content off, shift_ass_lines content off,
    fun hne => ⟨?_, ?_⟩⟩
  · exact unlines_ends ((rustLines content).map (shiftSrtLine off))
      (fun hmap => rustLines_ne_nil hne (List.map_eq_nil_iff.mp hmap))
  · exact unlines_ends ((rustLines content).map (shiftAssLine off))
      (fun hmap => rustLines_ne_nil hne (List.map_eq_nil_iff.mp hmap))

/-- Witness for C6 on a two-line document without a trailing newline. -/
theorem claim6_witness :
    rustLines (shift_srt ("x\n00:00:01,000 --> 00:00:02,000".data) 500) =
      (rustLines ("x\n00:00:01,000 --> 00:00:02,000".data)).map
        (fun l => stripCR (shiftSrtLine 500 l)) ∧
    (∃ t, shift_srt ("x\n00:00:01,000 --> 00:00:02,000".data) 500 = t ++ ['\n']) := by
  have h := claim6_line_structure ("x\n00:00:01,000 --> 00:00:02,000".data) 500
  exact ⟨h.1, (h.2.2 (by decide)).1⟩

/-- **C7.**  On a line (no embedded newline), the dialogue regex matches iff
    the line has the structural shape
    `Dialogue: <digits>,<H:MM:SS.cc>,<H:MM:SS.cc>,<rest>`; if it matches and
    both time fields parse, the line is replaced by
    `prefix ++ shifted-start ++ "," ++ shifted-end ++ "," ++ rest`,
    otherwise it is emitted verbatim. -/
theorem claim7_dialogue_pattern (line : List Char) (off : Int)
    (hnl : '\n' ∉ line) :
    (∀ pre t1 t2 rest, assMatch line = some (pre, t1, t2, rest) ↔
      AssShape line pre t1 t2 rest) ∧
    (∀ pre t1 t2 rest s e, assMatch line = some (pre, t1, t2, rest) →
      parse_timestamp_ass t1 = some s → parse_timestamp_ass t2 = some e →
      shiftAssLine off line =
        pre ++ format_timestamp_ass (max (s + off) 0) ++ ',' ::
          format_timestamp_ass (max (e + off) 0) ++ ',' :: rest) ∧
    (assMatch line = none → shiftAssLine off line = line) ∧
    (∀ pre t1 t2 rest, assMatch line = some (pre, t1, t2, rest) →
      parse_timestamp_ass t1 = none ∨ parse_timestamp_ass t2 = none →
      shiftAssLine off line = line) := by
  refine ⟨?_, ?_, ?_, ?_⟩
  · intro pre t1 t2 rest
    constructor
    · intro hm
      exact (assMatch_shape hm).1
    · intro hS
      have hrestnl : rest.all (fun c => c ≠ '\n') = true := by
        obtain ⟨idx, hpre, hidx, hdig, hline, hT1, hT2, hrest⟩ := hS
        rw [List.all_eq_true]
        intro c hc
        simp only [decide_eq_true_eq]
        rintro rfl
        apply hnl
        rw [hline]
        exact List.mem_append_right _ (List.mem_cons_of_mem _ hc)
      exact assMatch_shaped hS hrestnl
  · intro pre t1 t2 rest s e hm h1 h2
    exact shiftAssLine_match hm h1 h2 off
  · intro hm
    simp only [shiftAssLine, hm]
  · intro pre t1 t2 rest hm hor
    have htn : assTimes line = none := by
      simp only [assTimes, hm]
      rcases hor with h1 | h1
      · simp only [h1]
      · rcases hp1 : parse_timestamp_ass t1 with _ | s1
        · simp only [hp1]
        · simp only [hp1, h1]
    exact shiftAssLine_noTimes htn off

/-- Witness for C7: the sample dialogue line, both directions of the
    pattern characterisation and the rewrite. -/
theorem claim7_witness :
    AssShape ("Dialogue: 0,0:00:10.50,0:00:12.00,Hello".data)
      ("Dialogue: 0,".data) ("0:00:10.50".data) ("0:00:12.00".data)
      ("Hello".data) ∧
    shiftAssLine (-200) ("Dialogue: 0,0:00:10.50,0:00:12.00,Hello".data) =
      ("Dialogue: 0,".data) ++ format_timestamp_ass (max (10500 + (-200)) 0) ++ ',' ::
        format_timestamp_ass (max (12000 + (-200)) 0) ++ ',' :: ("Hello".data) := by
  have h := claim7_dialogue_pattern
    ("Dialogue: 0,0:00:10.50,0:00:12.00,Hello".data) (-200) (by decide)
  have hmA : assMatch ("Dialogue: 0,0:00:10.50,0:00:12.00,Hello".data) =
      some ("Dialogue: 0,".data, "0:00:10.50".data, "0:00:12.00".data,
        "Hello".data) := by decide
  have hpA : parse_timestamp_ass ("0:00:10.50".data) = some 10500 := by decide
  have hpB : parse_timestamp_ass ("0:00:12.00".data) = some 12000 := by decide
  constructor
  · exact (h.1 _ _ _ _).mp hmA
  · exact h.2.1 _ _ _ _ _ _ hmA hpA hpB

/-- **C8.**  The four documented episode-extraction examples. -/
theorem claim8_episode_examples :
    extract_episode_number ("Show.S01E07.mkv".data) = some 7 ∧
    extract_episode_number ("Show EP12 [1080p].mkv".data) = some 12 ∧
    extract_episode_number ("Show - 003.mkv".data) = some 3 ∧
    extract_episode_number ("Show.mkv".data) = none :=
  ⟨by decide, by decide, by decide, by decide⟩

/-- **C9 (counterexample).**  On `"e4294967296ep12"` the first pattern
    `(?i)e(\d+)` matches and captures `4294967296`, but the function does
    not return that capture (it overflows `u32`): it returns 12 from the
    second pattern. -/
theorem claim9_counterexample :
    matchE ("e4294967296ep12".data) = some ("4294967296".data) ∧
    extract_episode_number ("e4294967296ep12".data) = some 12 ∧
    (12 : Nat) ≠ digitsToNat ("4294967296".data) :=
  ⟨by decide, by decide, by decide⟩

/-- **C9 (amended).**  Episode extraction tries the four patterns in the
    fixed source order, case-insensitively, and returns the captured number
    of the first pattern that matches anywhere in the filename *and whose
    captured digits parse as a 32-bit unsigned integer*; a match whose
    capture overflows `u32` is skipped in favour of later patterns. -/
theorem claim9_priority_amended (f : List Char) :
    extract_episode_number f =
      ((matchE f).bind parseU32).or (((matchEp f).bind parseU32).or
        (((matchEpisodeWord f).bind parseU32).or
          ((matchBareNumber f).bind parseU32))) := by
  unfold extract_episode_number epPatterns
  rw [extractGo_cons, extractGo_cons, extractGo_cons, extractGo_cons]
  simp only [extractGo, Option.or_none]
  rfl

/-- **C10.**  If a pattern matches but its captured digit string fails to
    parse as `u32` (e.g. it overflows), the loop does not return `None` at
    that point: it falls through to the remaining lower-priority patterns. -/
theorem claim10_overflow_fallthrough (p : EpPattern) (ps : List EpPattern)
    (f ds : List Char) (hm : runPattern p f = some ds)
    (hp : parseU32 ds = none) : extractGo (p :: ps) f = extractGo ps f := by
  rw [extractGo_cons, hm, Option.some_bind, hp, Option.none_or]

/-- Witness for C10: the overflowing capture of pattern 1 falls through and
    pattern 2 still yields an episode number. -/
theorem claim10_witness :
    extractGo [EpPattern.pe, EpPattern.pep, EpPattern.pword, EpPattern.pbare]
        ("e4294967296ep12".data) =
      extractGo [EpPattern.pep, EpPattern.pword, EpPattern.pbare]
        ("e4294967296ep12".data) ∧
    extract_episode_number ("e4294967296ep12".data) = some 12 :=
  ⟨claim10_overflow_fallthrough EpPattern.pe
      [EpPattern.pep, EpPattern.pword, EpPattern.pbare]
      ("e4294967296ep12".data) ("4294967296".data) (by decide) (by decide),
   by decide⟩

end SubSync
